import Mathlib

/-!
Shallow embedding of the stock-management module (src/main.py):
three components, `SystemeAlerte` (circular alert buffer of size 3),
`Inventaire` (per-product FIFO queues plus a signed ledger backed by a
`Counter`), and `GestionnaireCommandes` (facade: parsing, feasibility,
assembly, sorting).  Python dicts and Counters are embedded as total
functions from `String`; a `Counter` read of a missing key yields 0
without inserting, so ledger reads are pure functions of the state.
Mutation is embedded as explicit state passing; the observable printing
and logging side channels that the claims mention (the backorder signal)
are reified as explicit result fields.
-/

/-- Pointwise update of a string-indexed map (dict / Counter store). -/
def updS {α : Type} (f : String → α) (p : String) (v : α) : String → α :=
  fun q => if q = p then v else f q

/-- State of `SystemeAlerte`: `historique = [None] * 3` and the circular
write cursor `index_ecr`. -/
structure SystemeAlerte where
  historique : List (Option String)
  index_ecr : Nat
deriving DecidableEq, Repr

/-- Source `SystemeAlerte.__init__`. -/
def SystemeAlerte.init : SystemeAlerte :=
  { historique := List.replicate 3 none, index_ecr := 0 }

/-- Source `SystemeAlerte.noter`: overwrite the slot under the cursor, advance the
cursor modulo 3.  (The `logging.warning` side channel carries the same
message and does not touch the state.) -/
def SystemeAlerte.noter (s : SystemeAlerte) (message : String) : SystemeAlerte :=
  { historique := s.historique.set s.index_ecr (some message),
    index_ecr := (s.index_ecr + 1) % 3 }

/-- Rendering of one slot in `afficher_tout`: `msg if msg else "Pas
d\x27alerte."` — a missing slot, and also an empty-string message, are
falsy in Python and render as the sentinel. -/
def renduSlot (msg : Option String) : String :=
  match msg with
  | some m => if m = "" then "Pas d\x27alerte." else m
  | none => "Pas d\x27alerte."

/-- Source `SystemeAlerte.afficher_tout`: the loop `for i in range(3)` over
`pos = (index_ecr + i) % 3`, unrolled; the result is the list of the three
rendered slot contents, oldest to newest (the `Slot i :` labels are pure
presentation). -/
def SystemeAlerte.afficher_tout (s : SystemeAlerte) : List String :=
  [renduSlot (s.historique.getD (s.index_ecr % 3) none),
   renduSlot (s.historique.getD ((s.index_ecr + 1) % 3) none),
   renduSlot (s.historique.getD ((s.index_ecr + 2) % 3) none)]

/-- Record a whole sequence of messages, in order. -/
def noterTout (s : SystemeAlerte) (ms : List String) : SystemeAlerte :=
  ms.foldl SystemeAlerte.noter s

/-- State of `Inventaire`: `_files` (dict of deques; `none` = key absent),
`_comptes` (a `Counter`, i.e. a total map defaulting to 0), and the alert
system `_alerteur` it owns a reference to. -/
structure Inventaire where
  files : String → Option (List String)
  comptes : String → Int
  alerteur : SystemeAlerte

/-- Source `Inventaire.__init__`. -/
def inventaireFresh (systeme_alerte : SystemeAlerte) : Inventaire :=
  { files := fun _ => none, comptes := fun _ => 0, alerteur := systeme_alerte }

/-- Source `Inventaire.ajouter`: create the deque if missing, append the product
string itself on the right, increment the ledger.  The two dict writes of
the source (create-empty then append) collapse into one map update. -/
def Inventaire.ajouter (inv : Inventaire) (produit : String) : Inventaire :=
  let file0 : List String := (inv.files produit).getD []
  { files := updS inv.files produit (some (file0 ++ [produit])),
    comptes := updS inv.comptes produit (inv.comptes produit + 1),
    alerteur := inv.alerteur }

/-- Source `Inventaire.quantite_comptable`: a `Counter` read; a missing key reads
as 0 and is not inserted, so this is a pure function of the state. -/
def Inventaire.quantite_comptable (inv : Inventaire) (produit : String) : Int :=
  inv.comptes produit

/-- Physical length of the queue of a product (absent queue = length 0). -/
def longueurFile (inv : Inventaire) (produit : String) : Nat :=
  ((inv.files produit).getD []).length

/-- The message built in `_verifier_seuil`. -/
def msgStockFaible (produit : String) (restant : Int) : String :=
  "ALERTE: Stock faible " ++ produit ++ " (Reste: " ++ toString restant ++ ")"

/-- Source `Inventaire._verifier_seuil`: after the decrement, if the remaining
ledger count is below 2, record a low-stock alert. -/
def Inventaire.verifier_seuil (inv : Inventaire) (produit : String) : SystemeAlerte :=
  let restant := inv.comptes produit
  if restant < 2 then SystemeAlerte.noter inv.alerteur (msgStockFaible produit restant)
  else inv.alerteur

/-- The pop step of `sortir`: `item = file_prod.popleft() if (file_prod and
file_prod) else None`.  A truthy `file_prod` is an existing, non-empty
deque; popping removes the front (oldest) unit. -/
def popGauche (files : String → Option (List String)) (produit : String) :
    Option String × (String → Option (List String)) :=
  match files produit with
  | some (x :: xs) => (some x, updS files produit (some xs))
  | some [] => (none, files)
  | none => (none, files)

/-- Result of `Inventaire.sortir`: the returned item (`none` is the Python
`None` sentinel), the new state, and whether `_signaler_rupture` fired
(that signal goes to `print`/`logging.error`, not to the alert buffer; we
reify its occurrence as a boolean). -/
structure SortieRes where
  item : Option String
  inv : Inventaire
  rupture : Bool

/-- Source `Inventaire.sortir`: decrement the ledger unconditionally, attempt the
pop, run the threshold check on the decremented count, signal a backorder
exactly when the pop returned `None`. -/
def Inventaire.sortir (inv : Inventaire) (produit : String) : SortieRes :=
  let comptes1 := updS inv.comptes produit (inv.comptes produit - 1)
  let pg := popGauche inv.files produit
  let inv1 : Inventaire := { files := pg.2, comptes := comptes1, alerteur := inv.alerteur }
  { item := pg.1,
    inv := { files := pg.2, comptes := comptes1,
             alerteur := Inventaire.verifier_seuil inv1 produit },
    rupture := pg.1.isNone }

/-- Raw `Inventaire` operations, for sequences of `add`/`remove` calls. -/
inductive InvOp where
  | add (produit : String)
  | remove (produit : String)
deriving DecidableEq, Repr

/-- Apply one raw inventory operation (the returned item of `remove` is
dropped; only the state evolves). -/
def appliquerInv (inv : Inventaire) : InvOp → Inventaire
  | InvOp.add p => inv.ajouter p
  | InvOp.remove p => (inv.sortir p).inv

/-- Run a sequence of raw inventory operations. -/
def runInv (inv : Inventaire) (ops : List InvOp) : Inventaire :=
  ops.foldl appliquerInv inv

/-- Strip leading and trailing whitespace from a character list
(`str.strip`). -/
def trimChars (l : List Char) : List Char :=
  ((l.dropWhile Char.isWhitespace).reverse.dropWhile Char.isWhitespace).reverse

/-- Decimal value of a digit run. -/
def valeurChiffres (l : List Char) : Nat :=
  l.foldl (fun acc c => 10 * acc + (c.toNat - 48)) 0

/-- Python `int(s)` on a string: surrounding whitespace is stripped, an
optional single sign is allowed, then a non-empty digit run; anything else
raises `ValueError`, embedded as `none`.  (Digit-grouping underscores and
non-ASCII digits, which the claims never exercise, are not modelled.) -/
def entierPython (l : List Char) : Option Int :=
  let t := trimChars l
  let sc : Int × List Char :=
    match t with
    | c :: reste =>
      if c = '+' then (1, reste) else if c = '-' then (-1, reste) else (1, t)
    | [] => (1, t)
  if !sc.2.isEmpty && sc.2.all Char.isDigit then some (sc.1 * (valeurChiffres sc.2 : Int))
  else none

/-- Source `GestionnaireCommandes._extraire_vol`: `int(nom_produit[1:])`, with 0
on any parse failure. -/
def extraire_vol (nom_produit : String) : Int :=
  match entierPython (nom_produit.toList.drop 1) with
  | some n => n
  | none => 0

/-- Volume as the specification text in section 3 words it: the integer
encoded by the maximal run of digit characters at the end of the token,
0 when that run is empty.  Stated from the spec, for comparison with
`extraire_vol`. -/
def volumeSuffixeSpec (t : String) : Int :=
  (valeurChiffres ((t.toList.reverse.takeWhile Char.isDigit).reverse) : Int)

/-- Sort relation used for packages: descending volume. -/
def ordreVolume (a b : String) : Prop := extraire_vol b ≤ extraire_vol a

instance decOrdreVolume : DecidableRel ordreVolume :=
  fun a b => inferInstanceAs (Decidable (extraire_vol b ≤ extraire_vol a))

instance totalOrdreVolume : IsTotal String ordreVolume :=
  ⟨fun a b => (le_total (extraire_vol b) (extraire_vol a)).imp id id⟩

instance transOrdreVolume : IsTrans String ordreVolume :=
  ⟨fun _ _ _ hab hbc => le_trans hbc hab⟩

/-- Source `GestionnaireCommandes._trier_par_volume`: `list.sort(key=..,
reverse=True)` is the stable descending sort by volume, which insertion
sort with the reflexive descending relation computes exactly. -/
def trier_par_volume (produits : List String) : List String :=
  List.insertionSort ordreVolume produits

/-- Source `texte.replace(",", " ")` on the character list. -/
def remplacerVirgules (l : List Char) : List Char :=
  l.map (fun c => if c = ',' then ' ' else c)

/-- Helper for `str.split()` with no argument: split on whitespace runs,
producing no empty tokens; `acc` holds the current token reversed. -/
def decouperBlancsAux (acc : List Char) : List Char → List (List Char)
  | [] => if acc.isEmpty then [] else [acc.reverse]
  | c :: reste =>
    if c.isWhitespace then
      if acc.isEmpty then decouperBlancsAux [] reste
      else acc.reverse :: decouperBlancsAux [] reste
    else decouperBlancsAux (c :: acc) reste

/-- Source `str.split()` with no argument. -/
def decouperBlancs (l : List Char) : List (List Char) :=
  decouperBlancsAux [] l

/-- Source `GestionnaireCommandes._parser`: falsy input yields `[]`; otherwise
replace commas by spaces, split on whitespace, strip each token, keep the
non-empty ones. -/
def parserTexte (texte : String) : List String :=
  if texte = "" then []
  else
    let nettoye := remplacerVirgules texte.toList
    ((decouperBlancs nettoye).map (fun mot => String.mk (trimChars mot))).filter
      (fun x => !(x == ""))

/-- The facade state: `GestionnaireCommandes` holds one `SystemeAlerte`
and one `Inventaire` that shares it, so the whole state is the
`Inventaire` (which carries the shared alert system). -/
abbrev GestionnaireCommandes := Inventaire

/-- Source `GestionnaireCommandes._traiter_arrivage`: add every parsed product in
sequence order. -/
def traiter_arrivage (g : GestionnaireCommandes) (texte : String) : GestionnaireCommandes :=
  (parserTexte texte).foldl Inventaire.ajouter g

/-- Source `GestionnaireCommandes.__init__`: fresh subsystems, then the optional
initial arrival (`if arrivage_init:` — `None` and the empty string are
falsy and skip it). -/
def GestionnaireCommandes.init (arrivage_init : Option String) : GestionnaireCommandes :=
  let g : Inventaire := inventaireFresh SystemeAlerte.init
  match arrivage_init with
  | some texte => if texte = "" then g else traiter_arrivage g texte
  | none => g

/-- Source `GestionnaireCommandes._verifier_faisabilite`: group the demand
(`Counter(demandes)`) and require every demanded quantity to be covered by
the current ledger count.  Iterating the distinct demanded products in any
order yields the same boolean as the source loop over `besoins.items()`. -/
def verifier_faisabilite (g : GestionnaireCommandes) (demandes : List String) : Bool :=
  (demandes.dedup).all
    (fun prod => !(decide (Inventaire.quantite_comptable g prod < (demandes.count prod : Int))))

/-- Result of order processing: the package, the final state, and the list
of products whose dispatch raised the backorder signal (in dispatch
order), reifying the `_signaler_rupture` side channel. -/
structure AssemblageRes where
  colis : List String
  gFinal : GestionnaireCommandes
  ruptures : List String

/-- The loop of `GestionnaireCommandes._assembler_colis`: dispatch each
demanded product in demand order, keeping the truthy returned items. -/
def assembler_aux : GestionnaireCommandes → List String → AssemblageRes
  | g, [] => { colis := [], gFinal := g, ruptures := [] }
  | g, prod :: reste =>
    let r := Inventaire.sortir g prod
    let suite := assembler_aux r.inv reste
    { colis :=
        match r.item with
        | some s => if s = "" then suite.colis else s :: suite.colis
        | none => suite.colis,
      gFinal := suite.gFinal,
      ruptures := if r.rupture then prod :: suite.ruptures else suite.ruptures }

/-- Source `GestionnaireCommandes._assembler_colis`: run the dispatch loop, then
sort the raw package by descending volume. -/
def assembler_colis (g : GestionnaireCommandes) (demandes : List String) : AssemblageRes :=
  let res := assembler_aux g demandes
  { colis := trier_par_volume res.colis, gFinal := res.gFinal, ruptures := res.ruptures }

/-- Source `GestionnaireCommandes.traiter_commande`: parse, reject under the
strict strategy when infeasible (returning the empty package and leaving
the state untouched), otherwise assemble. -/
def traiter_commande (g : GestionnaireCommandes) (texte : String) (strict : Bool) :
    AssemblageRes :=
  let demandes := parserTexte texte
  if strict && !(verifier_faisabilite g demandes) then
    { colis := [], gFinal := g, ruptures := [] }
  else assembler_colis g demandes

/-- The public operations of the facade (`afficher_etat` reads only and
does not appear). -/
inductive PubOp where
  | arrivage (texte : String)
  | commande (texte : String) (strict : Bool)
deriving Repr

/-- Apply one public operation to the facade state. -/
def appliquerPub (g : GestionnaireCommandes) : PubOp → GestionnaireCommandes
  | PubOp.arrivage t => traiter_arrivage g t
  | PubOp.commande t s => (traiter_commande g t s).gFinal

/-- Run a sequence of public operations. -/
def runPub (g : GestionnaireCommandes) (ops : List PubOp) : GestionnaireCommandes :=
  ops.foldl appliquerPub g

/-- Any state reachable through the public facade surface: construction
with an optional arrival text, then arrivals and orders. -/
def etatPublic (o : Option String) (ops : List PubOp) : GestionnaireCommandes :=
  runPub (GestionnaireCommandes.init o) ops

/-- The ledger/queue invariant of section 3 of the specification: the
signed ledger count never exceeds the physical queue length. -/
def InvariantComptable (inv : Inventaire) : Prop :=
  ∀ p, inv.comptes p ≤ (longueurFile inv p : Int)

/-- Structural invariant of publicly reachable states: the ledger/queue
inequality, every stored unit equals its product identifier, and no queue
exists under the empty product name (the parser never emits it). -/
def BonEtat (g : GestionnaireCommandes) : Prop :=
  InvariantComptable g ∧
  (∀ p l, g.files p = some l → ∀ u ∈ l, u = p) ∧
  g.files "" = none

/-! ### Basic lemmas about the state components -/

theorem updS_meme {α : Type} (f : String → α) (p : String) (v : α) : updS f p v p = v := by
  simp [updS]

theorem updS_autre {α : Type} (f : String → α) (p : String) (v : α) {q : String}
    (h : q ≠ p) : updS f p v q = f q := by
  simp [updS, h]

theorem sortir_comptes (inv : Inventaire) (p : String) :
    (inv.sortir p).inv.comptes = updS inv.comptes p (inv.comptes p - 1) := rfl

theorem sortir_item (inv : Inventaire) (p : String) :
    (inv.sortir p).item = (popGauche inv.files p).1 := rfl

theorem sortir_files (inv : Inventaire) (p : String) :
    (inv.sortir p).inv.files = (popGauche inv.files p).2 := rfl

theorem sortir_rupture (inv : Inventaire) (p : String) :
    (inv.sortir p).rupture = (inv.sortir p).item.isNone := rfl

theorem popGauche_cons {files : String → Option (List String)} {p : String} {x : String}
    {xs : List String} (h : files p = some (x :: xs)) :
    popGauche files p = (some x, updS files p (some xs)) := by
  simp [popGauche, h]

theorem popGauche_nil {files : String → Option (List String)} {p : String}
    (h : files p = some []) : popGauche files p = (none, files) := by
  simp [popGauche, h]

theorem popGauche_absent {files : String → Option (List String)} {p : String}
    (h : files p = none) : popGauche files p = (none, files) := by
  simp [popGauche, h]

theorem sortir_files_cons {inv : Inventaire} {p x : String} {xs : List String}
    (h : inv.files p = some (x :: xs)) :
    (inv.sortir p).inv.files = updS inv.files p (some xs) := by
  rw [sortir_files, popGauche_cons h]

theorem sortir_files_nil {inv : Inventaire} {p : String} (h : inv.files p = some []) :
    (inv.sortir p).inv.files = inv.files := by
  rw [sortir_files, popGauche_nil h]

theorem sortir_files_absent {inv : Inventaire} {p : String} (h : inv.files p = none) :
    (inv.sortir p).inv.files = inv.files := by
  rw [sortir_files, popGauche_absent h]

theorem sortir_item_cons {inv : Inventaire} {p x : String} {xs : List String}
    (h : inv.files p = some (x :: xs)) : (inv.sortir p).item = some x := by
  rw [sortir_item, popGauche_cons h]

theorem sortir_item_nil {inv : Inventaire} {p : String} (h : inv.files p = some []) :
    (inv.sortir p).item = none := by
  rw [sortir_item, popGauche_nil h]

theorem sortir_item_absent {inv : Inventaire} {p : String} (h : inv.files p = none) :
    (inv.sortir p).item = none := by
  rw [sortir_item, popGauche_absent h]

theorem ajouter_comptes (inv : Inventaire) (p : String) :
    (inv.ajouter p).comptes = updS inv.comptes p (inv.comptes p + 1) := rfl

theorem ajouter_files (inv : Inventaire) (p : String) :
    (inv.ajouter p).files = updS inv.files p (some ((inv.files p).getD [] ++ [p])) := rfl

theorem ajouter_alerteur (inv : Inventaire) (p : String) :
    (inv.ajouter p).alerteur = inv.alerteur := rfl

/-! ### Ledger arithmetic (claim C1 support) -/

theorem appliquerInv_comptes (inv : Inventaire) (op : InvOp) (p : String) :
    (appliquerInv inv op).comptes p =
      inv.comptes p + (if op = InvOp.add p then 1 else 0)
        - (if op = InvOp.remove p then 1 else 0) := by
  cases op with
  | add q =>
    by_cases hq : p = q
    · subst hq; simp [appliquerInv, ajouter_comptes, updS_meme]
    · simp [appliquerInv, ajouter_comptes, updS_autre _ _ _ hq, Ne.symm hq]
  | remove q =>
    by_cases hq : p = q
    · subst hq; simp [appliquerInv, sortir_comptes, updS_meme]
    · simp [appliquerInv, sortir_comptes, updS_autre _ _ _ hq, Ne.symm hq]

theorem runInv_comptes (ops : List InvOp) (inv : Inventaire) (p : String) :
    (runInv inv ops).comptes p =
      inv.comptes p + (ops.count (InvOp.add p) : Int) - (ops.count (InvOp.remove p) : Int) := by
  induction ops generalizing inv with
  | nil => simp [runInv]
  | cons op reste ih =>
    have hstep := appliquerInv_comptes inv op p
    have : runInv inv (op :: reste) = runInv (appliquerInv inv op) reste := rfl
    rw [this, ih (appliquerInv inv op), hstep]
    rcases op with q | q <;>
      · by_cases hq : q = p
        · subst hq
          simp [List.count_cons]
          omega
        · simp [List.count_cons, hq, Ne.symm hq]
          try omega

/-! ### The ledger/queue invariant (claim C2 support) -/

theorem longueurFile_ajouter_meme (inv : Inventaire) (p : String) :
    longueurFile (inv.ajouter p) p = longueurFile inv p + 1 := by
  simp [longueurFile, ajouter_files, updS_meme]

theorem longueurFile_ajouter_autre (inv : Inventaire) (p : String) {q : String} (h : q ≠ p) :
    longueurFile (inv.ajouter p) q = longueurFile inv q := by
  simp [longueurFile, ajouter_files, updS_autre _ _ _ h]

theorem invariantComptable_fresh (a : SystemeAlerte) :
    InvariantComptable (inventaireFresh a) := by
  intro p
  simp [inventaireFresh, longueurFile]

theorem invariantComptable_ajouter {inv : Inventaire} (h : InvariantComptable inv)
    (p : String) : InvariantComptable (inv.ajouter p) := by
  intro q
  by_cases hq : q = p
  · subst hq
    rw [ajouter_comptes, updS_meme, longueurFile_ajouter_meme]
    have := h q
    push_cast
    omega
  · rw [ajouter_comptes, updS_autre _ _ _ hq, longueurFile_ajouter_autre inv p hq]
    exact h q

theorem longueurFile_sortir_autre (inv : Inventaire) (p : String) {q : String} (hq : q ≠ p) :
    longueurFile ((inv.sortir p).inv) q = longueurFile inv q := by
  rcases hfp : inv.files p with _ | l
  · rw [longueurFile, sortir_files_absent hfp, longueurFile]
  · rcases l with _ | ⟨x, xs⟩
    · rw [longueurFile, sortir_files_nil hfp, longueurFile]
    · rw [longueurFile, sortir_files_cons hfp, updS_autre _ _ _ hq, longueurFile]

theorem invariantComptable_sortir {inv : Inventaire} (h : InvariantComptable inv)
    (p : String) : InvariantComptable ((inv.sortir p).inv) := by
  intro q
  by_cases hq : q = p
  · subst hq
    rw [sortir_comptes, updS_meme]
    have hq2 := h q
    rcases hfp : inv.files q with _ | l
    · rw [longueurFile, sortir_files_absent hfp, hfp]
      rw [longueurFile, hfp] at hq2
      simp at hq2 ⊢
      omega
    · rcases l with _ | ⟨x, xs⟩
      · rw [longueurFile, sortir_files_nil hfp, hfp]
        rw [longueurFile, hfp] at hq2
        simp at hq2 ⊢
        omega
      · rw [longueurFile, sortir_files_cons hfp, updS_meme]
        rw [longueurFile, hfp] at hq2
        simp at hq2 ⊢
        omega
  · rw [sortir_comptes, updS_autre _ _ _ hq, longueurFile_sortir_autre inv p hq]
    exact h q

theorem invariantComptable_runInv (a : SystemeAlerte) (ops : List InvOp) :
    InvariantComptable (runInv (inventaireFresh a) ops) := by
  suffices h : ∀ ops inv, InvariantComptable inv → InvariantComptable (runInv inv ops) by
    exact h ops _ (invariantComptable_fresh a)
  intro ops
  induction ops with
  | nil => intro inv h; exact h
  | cons op reste ih =>
    intro inv h
    have : runInv inv (op :: reste) = runInv (appliquerInv inv op) reste := rfl
    rw [this]
    apply ih
    cases op with
    | add q => exact invariantComptable_ajouter h q
    | remove q => exact invariantComptable_sortir h q

/-! ### Parser facts -/

theorem parserTexte_non_vide {texte t : String} (h : t ∈ parserTexte texte) : t ≠ "" := by
  unfold parserTexte at h
  split at h
  · simp at h
  · simp only [List.mem_filter] at h
    simpa using h.2

/-! ### The alert side of `sortir` (claim C5 support) -/

theorem sortir_alerteur (inv : Inventaire) (p : String) :
    (inv.sortir p).inv.alerteur =
      (if inv.comptes p - 1 < 2
       then SystemeAlerte.noter inv.alerteur (msgStockFaible p (inv.comptes p - 1))
       else inv.alerteur) := by
  simp [Inventaire.sortir, Inventaire.verifier_seuil, updS_meme]

/-! ### Structural invariant of publicly reachable states -/

theorem uniteInv_ajouter {g : Inventaire}
    (h2 : ∀ p l, g.files p = some l → ∀ u ∈ l, u = p) (p : String) :
    ∀ q l, ((g.ajouter p).files) q = some l → ∀ u ∈ l, u = q := by
  intro q l hl u hu
  rw [ajouter_files] at hl
  by_cases hq : q = p
  · subst hq
    rw [updS_meme] at hl
    injection hl with hl
    subst hl
    rcases List.mem_append.mp hu with hu | hu
    · rcases hf : g.files q with _ | l0
      · rw [hf] at hu; simp at hu
      · rw [hf] at hu
        exact h2 q l0 hf u hu
    · simpa using hu
  · rw [updS_autre _ _ _ hq] at hl
    exact h2 q l hl u hu

theorem uniteInv_sortir {g : Inventaire}
    (h2 : ∀ p l, g.files p = some l → ∀ u ∈ l, u = p) (p : String) :
    ∀ q l, (((g.sortir p).inv).files) q = some l → ∀ u ∈ l, u = q := by
  intro q l hl u hu
  rcases hf : g.files p with _ | l0
  · rw [sortir_files_absent hf] at hl; exact h2 q l hl u hu
  · rcases l0 with _ | ⟨x, xs⟩
    · rw [sortir_files_nil hf] at hl; exact h2 q l hl u hu
    · rw [sortir_files_cons hf] at hl
      by_cases hq : q = p
      · subst hq
        rw [updS_meme] at hl
        injection hl with hl
        subst hl
        exact h2 q (x :: xs) hf u (List.mem_cons_of_mem x hu)
      · rw [updS_autre _ _ _ hq] at hl
        exact h2 q l hl u hu

theorem filesVide_sortir {g : Inventaire} (h3 : g.files "" = none) (p : String) :
    ((g.sortir p).inv).files "" = none := by
  rcases hf : g.files p with _ | l0
  · rw [sortir_files_absent hf]; exact h3
  · rcases l0 with _ | ⟨x, xs⟩
    · rw [sortir_files_nil hf]; exact h3
    · rw [sortir_files_cons hf]
      by_cases hp : ("" : String) = p
      · subst hp
        rw [h3] at hf
        cases hf
      · rw [updS_autre _ _ _ hp]
        exact h3

theorem bonEtat_fresh (a : SystemeAlerte) : BonEtat (inventaireFresh a) := by
  refine ⟨invariantComptable_fresh a, ?_, rfl⟩
  intro p l hl
  simp [inventaireFresh] at hl

theorem bonEtat_ajouter {g : Inventaire} (h : BonEtat g) {p : String} (hp : p ≠ "") :
    BonEtat (g.ajouter p) := by
  obtain ⟨h1, h2, h3⟩ := h
  refine ⟨invariantComptable_ajouter h1 p, uniteInv_ajouter h2 p, ?_⟩
  rw [ajouter_files, updS_autre _ _ _ (Ne.symm hp)]
  exact h3

theorem bonEtat_sortir {g : Inventaire} (h : BonEtat g) (p : String) :
    BonEtat ((g.sortir p).inv) := by
  obtain ⟨h1, h2, h3⟩ := h
  exact ⟨invariantComptable_sortir h1 p, uniteInv_sortir h2 p, filesVide_sortir h3 p⟩

theorem bonEtat_foldl_ajouter :
    ∀ (toks : List String), (∀ t ∈ toks, t ≠ "") →
      ∀ g : GestionnaireCommandes, BonEtat g → BonEtat (toks.foldl Inventaire.ajouter g) := by
  intro toks
  induction toks with
  | nil => intro _ g hg; exact hg
  | cons t reste ih =>
    intro hne g hg
    simp only [List.foldl_cons]
    exact ih (fun s hs => hne s (List.mem_cons_of_mem _ hs)) _
      (bonEtat_ajouter hg (hne t (List.mem_cons_self _ _)))

theorem bonEtat_arrivage {g : GestionnaireCommandes} (h : BonEtat g) (texte : String) :
    BonEtat (traiter_arrivage g texte) :=
  bonEtat_foldl_ajouter _ (fun _ ht => parserTexte_non_vide ht) g h

theorem bonEtat_assembler {g : GestionnaireCommandes} (h : BonEtat g)
    (demandes : List String) : BonEtat (assembler_aux g demandes).gFinal := by
  induction demandes generalizing g with
  | nil => exact h
  | cons d reste ih =>
    have hstep : (assembler_aux g (d :: reste)).gFinal =
        (assembler_aux (Inventaire.sortir g d).inv reste).gFinal := rfl
    rw [hstep]
    exact ih (bonEtat_sortir h d)

theorem traiter_commande_def (g : GestionnaireCommandes) (texte : String) (strict : Bool) :
    traiter_commande g texte strict =
      if strict && !(verifier_faisabilite g (parserTexte texte)) then
        { colis := [], gFinal := g, ruptures := [] }
      else assembler_colis g (parserTexte texte) := rfl

theorem bonEtat_commande {g : GestionnaireCommandes} (h : BonEtat g)
    (texte : String) (strict : Bool) : BonEtat (traiter_commande g texte strict).gFinal := by
  rw [traiter_commande_def]
  split
  · exact h
  · exact bonEtat_assembler h _

theorem bonEtat_init (o : Option String) : BonEtat (GestionnaireCommandes.init o) := by
  unfold GestionnaireCommandes.init
  cases o with
  | none => exact bonEtat_fresh _
  | some t =>
    by_cases ht : t = ""
    · simp only [ht, if_pos rfl]
      exact bonEtat_fresh _
    · simp only [if_neg ht]
      exact bonEtat_arrivage (bonEtat_fresh _) t

theorem bonEtat_etatPublic (o : Option String) (ops : List PubOp) :
    BonEtat (etatPublic o ops) := by
  unfold etatPublic runPub
  suffices h : ∀ (ops : List PubOp) (g : GestionnaireCommandes),
      BonEtat g → BonEtat (ops.foldl appliquerPub g) by
    exact h ops _ (bonEtat_init o)
  intro ops
  induction ops with
  | nil => intro g hg; exact hg
  | cons op reste ih =>
    intro g hg
    simp only [List.foldl_cons]
    apply ih
    cases op with
    | arrivage t => exact bonEtat_arrivage hg t
    | commande t s => exact bonEtat_commande hg t s

/-! ### Feasibility and total assembly (claim C6 support) -/

theorem counts_vs_files {g : GestionnaireCommandes} {demandes : List String}
    (hf : verifier_faisabilite g demandes = true) (hinv : InvariantComptable g)
    (p : String) : (demandes.count p : Int) ≤ (longueurFile g p : Int) := by
  by_cases hp : p ∈ demandes
  · have h1 := List.all_eq_true.mp hf p (List.mem_dedup.mpr hp)
    simp only [Bool.not_eq_eq_eq_not, Bool.not_true, decide_eq_false_iff_not, not_lt,
      Inventaire.quantite_comptable] at h1
    exact le_trans h1 (hinv p)
  · have h0 : demandes.count p = 0 := List.count_eq_zero.mpr hp
    rw [h0]
    simp

theorem assembler_total :
    ∀ (demandes : List String) (g : GestionnaireCommandes),
      (∀ p l, g.files p = some l → ∀ u ∈ l, u = p) →
      g.files "" = none →
      (∀ p, (demandes.count p : Int) ≤ (longueurFile g p : Int)) →
      (assembler_aux g demandes).colis.length = demandes.length ∧
        (assembler_aux g demandes).ruptures = [] := by
  intro demandes
  induction demandes with
  | nil => intro g _ _ _; exact ⟨rfl, rfl⟩
  | cons d reste ih =>
    intro g h2 h3 hcnt
    have hd1 : 1 ≤ longueurFile g d := by
      have h := hcnt d
      rw [List.count_cons_self] at h
      have : ((reste.count d : Int) + 1) ≤ (longueurFile g d : Int) := by push_cast at h ⊢; omega
      omega
    obtain ⟨x, xs, hf⟩ : ∃ x xs, g.files d = some (x :: xs) := by
      rcases hfd : g.files d with _ | l0
      · exfalso; rw [longueurFile, hfd] at hd1; simp at hd1
      · rcases l0 with _ | ⟨x, xs⟩
        · exfalso; rw [longueurFile, hfd] at hd1; simp at hd1
        · exact ⟨x, xs, rfl⟩
    have hx : x = d := h2 d (x :: xs) hf x (List.mem_cons_self x xs)
    subst hx
    have hd_ne : x ≠ "" := by
      intro he
      rw [he, h3] at hf
      cases hf
    have hstep : assembler_aux g (x :: reste) =
        { colis := x :: (assembler_aux ((g.sortir x).inv) reste).colis,
          gFinal := (assembler_aux ((g.sortir x).inv) reste).gFinal,
          ruptures := (assembler_aux ((g.sortir x).inv) reste).ruptures } := by
      simp [assembler_aux, sortir_item_cons hf, sortir_rupture, hd_ne]
    have hcnt2 : ∀ p, ((reste.count p : Int)) ≤ (longueurFile ((g.sortir x).inv) p : Int) := by
      intro p
      by_cases hq : p = x
      · subst hq
        have h := hcnt p
        rw [List.count_cons_self] at h
        rw [longueurFile, hf] at h
        rw [longueurFile, sortir_files_cons hf, updS_meme]
        simp at h ⊢
        omega
      · have h := hcnt p
        rw [List.count_cons_of_ne hq] at h
        rw [longueurFile_sortir_autre g x hq]
        exact h
    have ihres := ih ((g.sortir x).inv) (uniteInv_sortir h2 x) (filesVide_sortir h3 x) hcnt2
    rw [hstep]
    refine ⟨?_, ihres.2⟩
    simp [ihres.1]

/-! ### Package contents (claim C10 support) -/

theorem assembler_count {demandes : List String} :
    ∀ {g : GestionnaireCommandes},
      (∀ p l, g.files p = some l → ∀ u ∈ l, u = p) →
      ∀ u, (assembler_aux g demandes).colis.count u ≤ demandes.count u := by
  induction demandes with
  | nil => intro g _ u; simp [assembler_aux]
  | cons d reste ih =>
    intro g h2 u
    have hcons : reste.count u ≤ (d :: reste).count u := by
      simp only [List.count_cons]
      split <;> omega
    rcases hf : g.files d with _ | l0
    · have hstep : (assembler_aux g (d :: reste)).colis =
          (assembler_aux ((g.sortir d).inv) reste).colis := by
        simp [assembler_aux, sortir_item_absent hf]
      rw [hstep]
      exact le_trans (ih (uniteInv_sortir h2 d) u) hcons
    · rcases l0 with _ | ⟨x, xs⟩
      · have hstep : (assembler_aux g (d :: reste)).colis =
            (assembler_aux ((g.sortir d).inv) reste).colis := by
          simp [assembler_aux, sortir_item_nil hf]
        rw [hstep]
        exact le_trans (ih (uniteInv_sortir h2 d) u) hcons
      · have hx : x = d := h2 d (x :: xs) hf x (List.mem_cons_self x xs)
        subst hx
        by_cases hvide : x = ""
        · subst hvide
          have hstep : (assembler_aux g ("" :: reste)).colis =
              (assembler_aux ((Inventaire.sortir g "").inv) reste).colis := by
            simp [assembler_aux, sortir_item_cons hf]
          rw [hstep]
          exact le_trans (ih (uniteInv_sortir h2 "") u) hcons
        · have hstep : (assembler_aux g (x :: reste)).colis =
              x :: (assembler_aux ((g.sortir x).inv) reste).colis := by
            simp [assembler_aux, sortir_item_cons hf, hvide]
          rw [hstep]
          have hle := ih (uniteInv_sortir h2 x) u
          simp only [List.count_cons]
          split <;> omega

theorem commande_count {g : GestionnaireCommandes}
    (h2 : ∀ p l, g.files p = some l → ∀ u ∈ l, u = p)
    (texte : String) (strict : Bool) (u : String) :
    (traiter_commande g texte strict).colis.count u ≤ (parserTexte texte).count u := by
  rw [traiter_commande_def]
  split
  · simp
  · have hperm := List.perm_insertionSort ordreVolume
      (assembler_aux g (parserTexte texte)).colis
    have heq : (assembler_colis g (parserTexte texte)).colis.count u =
        (assembler_aux g (parserTexte texte)).colis.count u := hperm.count_eq u
    rw [heq]
    exact assembler_count h2 u

/-! ### Total assembly under accepted strict orders (claim C6 support) -/

theorem commande_stricte_totale {g : GestionnaireCommandes} (hb : BonEtat g) {texte : String}
    (hf : verifier_faisabilite g (parserTexte texte) = true) :
    (traiter_commande g texte true).colis.length = (parserTexte texte).length ∧
      (traiter_commande g texte true).ruptures = [] := by
  obtain ⟨h1, h2, h3⟩ := hb
  have hcnt := fun p => counts_vs_files hf h1 p
  have htot := assembler_total (parserTexte texte) g h2 h3 hcnt
  rw [traiter_commande_def]
  simp only [hf, Bool.not_true, Bool.and_false, Bool.false_eq_true, if_false]
  constructor
  · have hlen : (assembler_colis g (parserTexte texte)).colis.length =
        (assembler_aux g (parserTexte texte)).colis.length :=
      (List.perm_insertionSort ordreVolume _).length_eq
    rw [hlen]
    exact htot.1
  · exact htot.2

theorem commande_stricte_tout_ou_rien {g : GestionnaireCommandes} (hb : BonEtat g)
    (texte : String) :
    (traiter_commande g texte true).colis.length = (parserTexte texte).length ∨
      (traiter_commande g texte true).colis = [] := by
  by_cases hf : verifier_faisabilite g (parserTexte texte) = true
  · exact Or.inl (commande_stricte_totale hb hf).1
  · right
    rw [traiter_commande_def]
    have hc : (true && !(verifier_faisabilite g (parserTexte texte))) = true := by
      simp only [Bool.not_eq_true] at hf
      simp [hf]
    rw [if_pos hc]

/-! ### The circular alert buffer (claim C8 support) -/

theorem noter_historique_length (s : SystemeAlerte) (m : String)
    (hlen : s.historique.length = 3) : (s.noter m).historique.length = 3 := by
  simp [SystemeAlerte.noter, hlen]

theorem noter_index_lt (s : SystemeAlerte) (m : String) : (s.noter m).index_ecr < 3 := by
  simp only [SystemeAlerte.noter]
  exact Nat.mod_lt _ (by norm_num)

theorem noterTout_invariant (ms : List String) (s : SystemeAlerte)
    (hlen : s.historique.length = 3) (hidx : s.index_ecr < 3) :
    (noterTout s ms).historique.length = 3 ∧ (noterTout s ms).index_ecr < 3 := by
  induction ms generalizing s with
  | nil => exact ⟨hlen, hidx⟩
  | cons m reste ih =>
    exact ih (s.noter m) (noter_historique_length s m hlen) (noter_index_lt s m)

theorem afficher_noter (s : SystemeAlerte) (m : String) (hlen : s.historique.length = 3)
    (hidx : s.index_ecr < 3) (hm : m ≠ "") :
    (s.noter m).afficher_tout = s.afficher_tout.drop 1 ++ [m] := by
  obtain ⟨hist, idx⟩ := s
  simp only at hlen hidx
  obtain ⟨a, b, c, rfl⟩ := List.length_eq_three.mp hlen
  interval_cases idx <;>
    simp [SystemeAlerte.noter, SystemeAlerte.afficher_tout, renduSlot, hm, List.set, List.getD]

theorem algebre_fenetre (sent m : String) (ms : List String) :
    (List.replicate (3 - ms.length) sent ++ ms.drop (ms.length - 3)).drop 1 ++ [m]
      = List.replicate (3 - (ms.length + 1)) sent ++ (ms ++ [m]).drop (ms.length + 1 - 3) := by
  rcases Nat.lt_or_ge ms.length 3 with hk | hk
  · have h30 : ms.length - 3 = 0 := by omega
    have h13 : ms.length + 1 - 3 = 0 := by omega
    have hrep : 3 - ms.length = (3 - (ms.length + 1)) + 1 := by omega
    rw [h30, h13, List.drop_zero, List.drop_zero, hrep, List.replicate_succ]
    simp
  · have h3 : 3 - ms.length = 0 := by omega
    have h31 : 3 - (ms.length + 1) = 0 := by omega
    rw [h3, h31, List.replicate_zero, List.nil_append, List.nil_append,
      List.drop_drop, List.drop_append_eq_append_drop]
    have e1 : ms.length - 3 + 1 = ms.length - 2 := by omega
    have e2 : ms.length + 1 - 3 = ms.length - 2 := by omega
    rw [e1, e2]
    have e3 : ms.length - 2 - ms.length = 0 := by omega
    rw [e3, List.drop_zero]

theorem afficher_noterTout (ms : List String) (h : ∀ m ∈ ms, m ≠ "") :
    (noterTout SystemeAlerte.init ms).afficher_tout
      = List.replicate (3 - ms.length) "Pas d\x27alerte." ++ ms.drop (ms.length - 3) := by
  induction ms using List.reverseRecOn with
  | nil => rfl
  | append_singleton ms m ih =>
    have hm : m ≠ "" := h m (by simp)
    have hms : ∀ x ∈ ms, x ≠ "" := fun x hx => h x (by simp [hx])
    have hfold : noterTout SystemeAlerte.init (ms ++ [m]) =
        (noterTout SystemeAlerte.init ms).noter m := by
      simp [noterTout, List.foldl_append]
    have hinv := noterTout_invariant ms SystemeAlerte.init (by rfl) (by norm_num [SystemeAlerte.init])
    rw [hfold, afficher_noter _ m hinv.1 hinv.2 hm, ih hms, algebre_fenetre]
    simp

/-! ### Volume extraction (claim C9 support) -/

theorem chiffre_pas_espace {c : Char} (h : c.isDigit = true) : c.isWhitespace = false := by
  have h1 : c ≠ ' ' := by rintro rfl; exact absurd h (by decide)
  have h2 : c ≠ '\t' := by rintro rfl; exact absurd h (by decide)
  have h3 : c ≠ '\r' := by rintro rfl; exact absurd h (by decide)
  have h4 : c ≠ '\n' := by rintro rfl; exact absurd h (by decide)
  simp [Char.isWhitespace, h1, h2, h3, h4]

theorem chiffre_pas_signe {c : Char} (h : c.isDigit = true) : c ≠ '+' ∧ c ≠ '-' := by
  constructor <;> rintro rfl <;> exact absurd h (by decide)

theorem trimChars_chiffres {l : List Char} (h : l.all Char.isDigit = true) :
    trimChars l = l := by
  have hws : ∀ c ∈ l, c.isWhitespace = false :=
    fun c hc => chiffre_pas_espace (List.all_eq_true.mp h c hc)
  unfold trimChars
  have h1 : l.dropWhile Char.isWhitespace = l := by
    cases l with
    | nil => rfl
    | cons x xs =>
      rw [List.dropWhile_cons]
      simp [hws x (by simp)]
  rw [h1]
  have h2 : l.reverse.dropWhile Char.isWhitespace = l.reverse := by
    cases hrev : l.reverse with
    | nil => rfl
    | cons x xs =>
      have hx : x ∈ l := by
        rw [← List.mem_reverse, hrev]
        simp
      rw [List.dropWhile_cons]
      simp [hws x hx]
  rw [h2, List.reverse_reverse]

theorem entierPython_chiffres {l : List Char} (hne : l ≠ []) (h : l.all Char.isDigit = true) :
    entierPython l = some (valeurChiffres l : Int) := by
  unfold entierPython
  rw [trimChars_chiffres h]
  rcases l with _ | ⟨d, ds⟩
  · exact absurd rfl hne
  have hd : d.isDigit = true := by
    rw [List.all_cons] at h
    exact (Bool.and_eq_true _ _).mp h |>.1
  obtain ⟨hplus, hminus⟩ := chiffre_pas_signe hd
  dsimp only
  rw [if_neg hplus, if_neg hminus]
  simp [h]

theorem extraire_vol_chiffres (c : Char) (reste : List Char) (hne : reste ≠ [])
    (h : reste.all Char.isDigit = true) :
    extraire_vol (String.mk (c :: reste)) = (valeurChiffres reste : Int) := by
  unfold extraire_vol
  have hdrop : (String.mk (c :: reste)).toList.drop 1 = reste := rfl
  rw [hdrop, entierPython_chiffres hne h]

theorem extraire_vol_echec {t : String} (h : entierPython (t.toList.drop 1) = none) :
    extraire_vol t = 0 := by
  unfold extraire_vol
  rw [h]

/-! ### The claims -/

/-- C1: starting from a fresh inventory, after any sequence of add/remove
operations (on any products, in any order) the ledger count of a product
equals the number of adds of that product minus the number of removes,
regardless of physical queue availability, and a product never seen by any
operation has ledger count 0.  `quantite_comptable` is embedded as a pure
read (`Counter.__getitem__` returns 0 for a missing key without inserting),
so reading the ledger changes neither the ledger map nor any queue. -/
theorem claim_C1_grand_livre (a : SystemeAlerte) (ops : List InvOp) (p : String) :
    Inventaire.quantite_comptable (runInv (inventaireFresh a) ops) p
        = (ops.count (InvOp.add p) : Int) - (ops.count (InvOp.remove p) : Int)
    ∧ Inventaire.quantite_comptable (inventaireFresh a) p = 0 := by
  constructor
  · have h := runInv_comptes ops (inventaireFresh a) p
    simpa [Inventaire.quantite_comptable, inventaireFresh] using h
  · rfl

/-- C2: in every state reachable from a fresh inventory by add/remove
sequences, the signed ledger count of every product is at most the length
of its physical queue; queue lengths are non-negative; and each single add
and each single remove preserves the invariant. -/
theorem claim_C2_invariant :
    (∀ (a : SystemeAlerte) (ops : List InvOp),
        InvariantComptable (runInv (inventaireFresh a) ops))
    ∧ (∀ (inv : Inventaire) (p : String), InvariantComptable inv →
        InvariantComptable (inv.ajouter p) ∧ InvariantComptable ((inv.sortir p).inv))
    ∧ (∀ (inv : Inventaire) (p : String), (0 : Int) ≤ (longueurFile inv p : Int)) :=
  ⟨invariantComptable_runInv,
   fun _ p h => ⟨invariantComptable_ajouter h p, invariantComptable_sortir h p⟩,
   fun _ _ => Int.natCast_nonneg _⟩

/-- Witness for C2: the preservation part applied at a concrete invariant
state. -/
theorem claim_C2_temoin :
    InvariantComptable ((inventaireFresh SystemeAlerte.init).ajouter "A1")
    ∧ InvariantComptable (((inventaireFresh SystemeAlerte.init).sortir "A1").inv) :=
  claim_C2_invariant.2.1 (inventaireFresh SystemeAlerte.init) "A1"
    (fun p => by simp [inventaireFresh, longueurFile])

/-- C3: when the strict feasibility check fails, `traiter_commande` returns
the empty package, raises no backorder, and the whole state (every ledger
entry, every queue, the alert buffer) is exactly the state before the
call. -/
theorem claim_C3_rejet_strict (g : GestionnaireCommandes) (texte : String)
    (h : verifier_faisabilite g (parserTexte texte) = false) :
    traiter_commande g texte true = { colis := [], gFinal := g, ruptures := [] } := by
  rw [traiter_commande_def]
  simp [h]

/-- Witness for C3: a fresh manager rejects an order of one unit. -/
theorem claim_C3_temoin :
    verifier_faisabilite (inventaireFresh SystemeAlerte.init) (parserTexte "A1") = false
    ∧ traiter_commande (inventaireFresh SystemeAlerte.init) "A1" true
        = { colis := [], gFinal := inventaireFresh SystemeAlerte.init, ruptures := [] } :=
  ⟨by decide, claim_C3_rejet_strict _ "A1" (by decide)⟩

/-- C4: `sortir` decrements the ledger of its product by exactly 1
unconditionally and touches no other ledger entry; it pops and returns the
front (oldest) unit exactly when the queue exists and is non-empty, returns
the `None` sentinel leaving all queues unchanged when the queue is empty or
absent, never touches the queues of other products, and the backorder
signal fires exactly on the calls that return the sentinel. -/
theorem claim_C4_sortie (inv : Inventaire) (p : String) :
    (inv.sortir p).inv.comptes p = inv.comptes p - 1
    ∧ (∀ q, q ≠ p → (inv.sortir p).inv.comptes q = inv.comptes q)
    ∧ (∀ x xs, inv.files p = some (x :: xs) →
        (inv.sortir p).item = some x ∧ (inv.sortir p).inv.files p = some xs)
    ∧ (inv.files p = none ∨ inv.files p = some [] →
        (inv.sortir p).item = none ∧ (inv.sortir p).inv.files = inv.files)
    ∧ (∀ q, q ≠ p → (inv.sortir p).inv.files q = inv.files q)
    ∧ ((inv.sortir p).rupture = true ↔ (inv.sortir p).item = none) := by
  refine ⟨?_, ?_, ?_, ?_, ?_, ?_⟩
  · rw [sortir_comptes, updS_meme]
  · intro q hq
    rw [sortir_comptes, updS_autre _ _ _ hq]
  · intro x xs hf
    exact ⟨sortir_item_cons hf, by rw [sortir_files_cons hf, updS_meme]⟩
  · rintro (hf | hf)
    · exact ⟨sortir_item_absent hf, sortir_files_absent hf⟩
    · exact ⟨sortir_item_nil hf, sortir_files_nil hf⟩
  · intro q hq
    rcases hf : inv.files p with _ | l
    · rw [sortir_files_absent hf]
    · rcases l with _ | ⟨x, xs⟩
      · rw [sortir_files_nil hf]
      · rw [sortir_files_cons hf, updS_autre _ _ _ hq]
  · rw [sortir_rupture]
    simp [Option.isNone_iff_eq_none]

/-- Witness for C4: a successful pop on a stocked product, a sentinel on a
fresh one, and untouched foreign ledger entries. -/
theorem claim_C4_temoin :
    (((inventaireFresh SystemeAlerte.init).ajouter "A1").sortir "A1").item = some "A1"
    ∧ ((((inventaireFresh SystemeAlerte.init).ajouter "A1").sortir "A1").inv.files "A1"
        = some [])
    ∧ (((inventaireFresh SystemeAlerte.init).sortir "A1").item = none
        ∧ ((inventaireFresh SystemeAlerte.init).sortir "A1").inv.files
            = (inventaireFresh SystemeAlerte.init).files)
    ∧ (((inventaireFresh SystemeAlerte.init).ajouter "A1").sortir "A1").inv.comptes "B2"
        = ((inventaireFresh SystemeAlerte.init).ajouter "A1").comptes "B2" := by
  have hcons := (claim_C4_sortie ((inventaireFresh SystemeAlerte.init).ajouter "A1")
    "A1").2.2.1 "A1" [] (by decide)
  refine ⟨hcons.1, hcons.2, ?_, ?_⟩
  · exact (claim_C4_sortie (inventaireFresh SystemeAlerte.init) "A1").2.2.2.1 (Or.inl rfl)
  · exact (claim_C4_sortie ((inventaireFresh SystemeAlerte.init).ajouter "A1")
      "A1").2.1 "B2" (by decide)

/-- C5: every `sortir` call evaluates the threshold on the decremented
ledger count c: when c < 2 the call records into the alert buffer exactly
one low-stock alert, the message carrying the product identifier and c
(this includes c = 0 and all negative c, on every such call); when c >= 2
the alert buffer is left exactly as it was. -/
theorem claim_C5_seuil (inv : Inventaire) (p : String) :
    (inv.comptes p - 1 < 2 →
      (inv.sortir p).inv.alerteur
        = SystemeAlerte.noter inv.alerteur (msgStockFaible p (inv.comptes p - 1)))
    ∧ (2 ≤ inv.comptes p - 1 → (inv.sortir p).inv.alerteur = inv.alerteur) := by
  constructor
  · intro h
    rw [sortir_alerteur, if_pos h]
  · intro h
    rw [sortir_alerteur, if_neg (not_lt.mpr h)]

/-- Witness for C5: dispatching from a fresh inventory drives the count to
-1 < 2 and records exactly one low-stock alert. -/
theorem claim_C5_temoin :
    ((inventaireFresh SystemeAlerte.init).comptes "A1" - 1 < 2)
    ∧ ((inventaireFresh SystemeAlerte.init).sortir "A1").inv.alerteur
        = SystemeAlerte.noter (inventaireFresh SystemeAlerte.init).alerteur
            (msgStockFaible "A1" ((inventaireFresh SystemeAlerte.init).comptes "A1" - 1)) :=
  ⟨by decide, (claim_C5_seuil (inventaireFresh SystemeAlerte.init) "A1").1 (by decide)⟩

/-- C6: in every state reachable through the public facade operations, if
the strict feasibility pass succeeds on an order text, the returned package
has exactly one unit per parsed demand token and no dispatch during
assembly returns the sentinel (no backorder signal); moreover under the
strict strategy a package is always either full-length or empty, so a
strictly shorter non-empty package can only arise under the non-strict
strategy. -/
theorem claim_C6_commande_stricte (o : Option String) (ops : List PubOp) (texte : String)
    (h : verifier_faisabilite (etatPublic o ops) (parserTexte texte) = true) :
    (traiter_commande (etatPublic o ops) texte true).colis.length = (parserTexte texte).length
    ∧ (traiter_commande (etatPublic o ops) texte true).ruptures = []
    ∧ (∀ texte2, (traiter_commande (etatPublic o ops) texte2 true).colis.length
          = (parserTexte texte2).length
        ∨ (traiter_commande (etatPublic o ops) texte2 true).colis = []) := by
  have hb := bonEtat_etatPublic o ops
  obtain ⟨h1, h2⟩ := commande_stricte_totale hb h
  exact ⟨h1, h2, fun texte2 => commande_stricte_tout_ou_rien hb texte2⟩

/-- Witness for C6: a stocked manager accepts a one-unit order and ships a
full-length package. -/
theorem claim_C6_temoin :
    verifier_faisabilite (etatPublic (some "A1, B2") []) (parserTexte "A1") = true
    ∧ (traiter_commande (etatPublic (some "A1, B2") []) "A1" true).colis.length
        = (parserTexte "A1").length :=
  ⟨by decide, (claim_C6_commande_stricte (some "A1, B2") [] "A1" (by decide)).1⟩

/-- C7: the package returned by assembly is the raw dispatched sequence
sorted by non-increasing volume (stable: insertion sort with the reflexive
descending relation is the stable descending sort that the Python
`list.sort(key=.., reverse=True)` performs); in particular units dispatched
in the order A1, B2, C3, A3 come back ordered C3, A3, B2, A1, with the tie
C3/A3 kept in dispatch order, both for the bare sort and through a full
`traiter_commande` call. -/
theorem claim_C7_tri :
    (∀ (g : GestionnaireCommandes) (demandes : List String),
        (assembler_colis g demandes).colis = trier_par_volume (assembler_aux g demandes).colis)
    ∧ (∀ l : List String, List.Sorted ordreVolume (trier_par_volume l))
    ∧ (∀ l : List String, (trier_par_volume l).Perm l)
    ∧ trier_par_volume ["A1", "B2", "C3", "A3"] = ["C3", "A3", "B2", "A1"]
    ∧ (traiter_commande (GestionnaireCommandes.init (some "A1, B2, C3, A3"))
          "A1, B2, C3, A3" true).colis = ["C3", "A3", "B2", "A1"] := by
  refine ⟨fun _ _ => rfl, ?_, ?_, by decide, by decide⟩
  · intro l
    exact List.sorted_insertionSort ordreVolume l
  · intro l
    exact List.perm_insertionSort ordreVolume l

/-- C8: recording any sequence of (non-empty) messages into a fresh alert
buffer, the snapshot shows, oldest-to-newest relative to the cursor, the
last three recorded messages when three or more were recorded, and
otherwise the recorded messages preceded by explicit sentinel slots. -/
theorem claim_C8_alertes (ms : List String) (h : ∀ m ∈ ms, m ≠ "") :
    (noterTout SystemeAlerte.init ms).afficher_tout
      = List.replicate (3 - ms.length) "Pas d\x27alerte." ++ ms.drop (ms.length - 3) :=
  afficher_noterTout ms h

/-- Witness for C8: five distinct messages leave exactly the last three,
oldest first. -/
theorem claim_C8_temoin :
    (∀ m ∈ (["m1", "m2", "m3", "m4", "m5"] : List String), m ≠ "")
    ∧ (noterTout SystemeAlerte.init ["m1", "m2", "m3", "m4", "m5"]).afficher_tout
        = ["m3", "m4", "m5"] := by
  refine ⟨by decide, ?_⟩
  rw [claim_C8_alertes ["m1", "m2", "m3", "m4", "m5"] (by decide)]
  decide

/-- C9 counterexample: the claim says the volume is the value of the
maximal trailing digit run, e.g. any token ending in the run "3" has
volume 3; but the code parses all characters after the first one, so
"AB3" has volume 0, not 3. -/
theorem claim_C9_contre :
    extraire_vol "AB3" = 0 ∧ volumeSuffixeSpec "AB3" = 3
      ∧ extraire_vol "AB3" ≠ volumeSuffixeSpec "AB3" := by decide

/-- C9 (amended): the volume of a token is the integer parsed (Python `int`
semantics) from all characters after the first one; in particular when
those characters form a non-empty digit run the volume is the value of that run,
and whenever the parse fails (missing or non-numeric tail) the volume is
0. -/
theorem claim_C9_volume :
    (∀ (c : Char) (reste : List Char), reste ≠ [] → reste.all Char.isDigit = true →
        extraire_vol (String.mk (c :: reste)) = (valeurChiffres reste : Int))
    ∧ (∀ t : String, entierPython (t.toList.drop 1) = none → extraire_vol t = 0) :=
  ⟨extraire_vol_chiffres, fun _ h => extraire_vol_echec h⟩

/-- Witness for C9: "A3" has volume 3; "AB3" fails the parse and has
volume 0. -/
theorem claim_C9_temoin :
    extraire_vol (String.mk ['A', '3']) = (valeurChiffres ['3'] : Int)
    ∧ entierPython (("AB3" : String).toList.drop 1) = none
    ∧ extraire_vol "AB3" = 0 := by
  refine ⟨?_, by decide, ?_⟩
  · exact claim_C9_volume.1 'A' ['3'] (by decide) (by decide)
  · exact claim_C9_volume.2 "AB3" (by decide)

/-- C10: in every publicly reachable state, every unit stored in a queue is
the product identifier itself; hence `sortir` returns the sentinel or
exactly its product, and every package element occurs in the package no
more often than the corresponding token occurs in the parsed demand. -/
theorem claim_C10_unites (o : Option String) (ops : List PubOp) :
    (∀ p l, (etatPublic o ops).files p = some l → ∀ u ∈ l, u = p)
    ∧ (∀ p, (Inventaire.sortir (etatPublic o ops) p).item = none
        ∨ (Inventaire.sortir (etatPublic o ops) p).item = some p)
    ∧ (∀ texte strict u,
        (traiter_commande (etatPublic o ops) texte strict).colis.count u
          ≤ (parserTexte texte).count u) := by
  obtain ⟨h1, h2, h3⟩ := bonEtat_etatPublic o ops
  refine ⟨h2, ?_, ?_⟩
  · intro p
    rcases hf : (etatPublic o ops).files p with _ | l
    · exact Or.inl (sortir_item_absent hf)
    · rcases l with _ | ⟨x, xs⟩
      · exact Or.inl (sortir_item_nil hf)
      · right
        rw [sortir_item_cons hf,
          h2 p (x :: xs) hf x (List.mem_cons_self x xs)]
  · intro texte strict u
    exact commande_count h2 texte strict u

/-- Witness for C10: a seeded manager, with the unit-identity hypothesis
discharged on its concrete queue, a dispatch, and a package count. -/
theorem claim_C10_temoin :
    (∀ u ∈ (["A1"] : List String), u = "A1")
    ∧ ((Inventaire.sortir (etatPublic (some "A1") []) "A1").item = none
        ∨ (Inventaire.sortir (etatPublic (some "A1") []) "A1").item = some "A1")
    ∧ (traiter_commande (etatPublic (some "A1") []) "A1" false).colis.count "A1"
        ≤ (parserTexte "A1").count "A1" := by
  refine ⟨?_, ?_, ?_⟩
  · exact (claim_C10_unites (some "A1") []).1 "A1" ["A1"] (by decide)
  · exact (claim_C10_unites (some "A1") []).2.1 "A1"
  · exact (claim_C10_unites (some "A1") []).2.2 "A1" false "A1"
